import Mathlib

/-!
Verification development for the PostHog special-migrations subsystem.

The definitions below are a shallow embedding of:
  * `posthog/special_migrations/manager.py`
    (registry construction and `init_special_migrations`), and
  * `posthog/special_migrations/migrations/events_sample_by_migration.py`
    (`Migration.healthcheck` and `Migration.progress`).

Semantic versions (the `semantic_version` library's `Version` on
`major.minor.patch` strings) are modelled as triples of naturals under
lexicographic order.  The migration record store (the Django model
`SpecialMigration`) is modelled as an association list from migration
name to status.  Python exceptions are modelled by threading the store
and returning an optional error, so that the state at the moment an
exception is raised remains observable, exactly as the database rows do.
Real division in queries is modelled with rationals.
-/

/-- A semantic version `major.minor.patch`, as used by the
`semantic_version` library for `POSTHOG_VERSION` and the
`posthog_min_version` / `posthog_max_version` strings. -/
structure Version where
  major : Nat
  minor : Nat
  patch : Nat
deriving DecidableEq, Repr

namespace Version

/-- Strict lexicographic comparison of versions, the `semantic_version`
library's `<` on release triples. -/
def ltb (a b : Version) : Bool :=
  if a.major < b.major then true
  else if b.major < a.major then false
  else if a.minor < b.minor then true
  else if b.minor < a.minor then false
  else decide (a.patch < b.patch)

/-- Non-strict comparison: equal or lexicographically smaller. -/
def leb (a b : Version) : Bool :=
  decide (a = b) || ltb a b

/-- Rendering used in f-strings: `"{major}.{minor}.{patch}"`. -/
def render (v : Version) : String :=
  toString v.major ++ "." ++ toString v.minor ++ "." ++ toString v.patch

end Version

/-- Lexicographic comparison of character lists by code point, the
order Python's `sorted` uses on strings. -/
def charListLeb : List Char → List Char → Bool
  | [], _ => true
  | _ :: _, [] => false
  | c :: cs, d :: ds =>
    if c < d then true else if d < c then false else charListLeb cs ds

/-- String comparison by code points, as Python's `sorted` compares
`str` values. -/
def strLE (a b : String) : Prop := charListLeb a.data b.data = true

instance : DecidableRel strLE := fun _ _ => instDecidableEqBool _ _

/-- Strict string comparison by code points. -/
def strLT (a b : String) : Prop := strLE a b ∧ a ≠ b

instance : DecidableRel strLT :=
  fun a b => decidable_of_iff (strLE a b ∧ a ≠ b) Iff.rfl

/-- Status of a migration record.  Modelled from the spec:
the Django model `SpecialMigration` (not part of the analysed sources)
carries a status field with values
`NotStarted | Running | CompletedSuccessfully | Errored | RolledBack | Starting`. -/
inductive MigrationStatus where
  | notStarted
  | starting
  | running
  | completedSuccessfully
  | errored
  | rolledBack
deriving DecidableEq, BEq, Repr

/-- The migration record store: one row per migration name.
Modelled from the spec: the durable `SpecialMigration` table, keyed by
name, is not part of the analysed sources; rows are (name, status)
pairs created lazily by the version gate. -/
abbrev RecordStore := List (String × MigrationStatus)

/-- Status of the record named `n`, if a record exists. -/
def lookupStatus (s : RecordStore) (n : String) : Option MigrationStatus :=
  (s.find? (fun p => p.1 == n)).map Prod.snd

/-- Modelled from the spec: Django's
`SpecialMigration.objects.get_or_create(name=...)` inserts a fresh
record (in the `NotStarted` state, the model default) exactly when no
record with that name exists, and never alters an existing record. -/
def getOrCreate (s : RecordStore) (n : String) : RecordStore :=
  match lookupStatus s n with
  | some _ => s
  | none => s ++ [(n, MigrationStatus.notStarted)]

/-- Modelled from the spec: `get_all_completed_special_migrations`
(not part of the analysed sources) returns the records whose status is
`CompletedSuccessfully`; the manager only uses their names. -/
def getAllCompleted (s : RecordStore) : List String :=
  (s.filter (fun p => p.2 == MigrationStatus.completedSuccessfully)).map Prod.fst

/-- The per-definition data the version gate reads:
the `posthog_min_version` / `posthog_max_version` class attributes. -/
structure MigrationDef where
  posthog_min_version : Version
  posthog_max_version : Version
deriving DecidableEq, Repr

/-- The migration registry `ALL_SPECIAL_MIGRATIONS`: a Python dict from
module name to `Migration` instance, modelled as an association list in
insertion order (a dict cannot hold two entries with the same key). -/
abbrev Registry := List (String × MigrationDef)

/-- `ALL_SPECIAL_MIGRATIONS[name]`: the dict lookup used inside the
gate's loop. -/
def lookupDef (reg : Registry) (n : String) : Option MigrationDef :=
  (reg.find? (fun p => p.1 == n)).map Prod.snd

/-- Python dict assignment `d[k] = v`: overwrite the entry for `k` when
one exists, otherwise append a new entry. -/
def dictInsert (d : Registry) (k : String) (v : MigrationDef) : Registry :=
  if d.any (fun p => p.1 == k) then
    d.map (fun p => if p.1 == k then (k, v) else p)
  else
    d ++ [(k, v)]

/-- The condition `name != "example" or DEBUG` of manager.py line 12. -/
def includedModule (debug : Bool) (p : String × MigrationDef) : Bool :=
  decide (p.1 ≠ "example") || debug

/-- Construction of `ALL_SPECIAL_MIGRATIONS` (manager.py lines 9-13):
iterate the discovered submodules and store each module's `Migration()`
under the module name, skipping the module named `"example"` unless
`DEBUG` is set.  There is no duplicate-name check. -/
def buildRegistry (debug : Bool) (modules : List (String × MigrationDef)) : Registry :=
  modules.foldl
    (fun acc p => if includedModule debug p = true then dictInsert acc p.1 p.2 else acc) []

/-- The data of the `ImproperlyConfigured` exception raised by the gate:
which migration triggered it and the formatted message. -/
structure GateError where
  migrationName : String
  message : String
deriving DecidableEq, Repr

/-- The f-string in manager.py line 27:
`f"Migration {migration_name} is required for PostHog versions above {VERSION}."`
Note that `VERSION` is the *current application version*, not the
migration's `posthog_max_version`. -/
def gateErrorMessage (migrationName : String) (appVersion : Version) : String :=
  "Migration " ++ migrationName ++ " is required for PostHog versions above "
    ++ Version.render appVersion ++ "."

/-- The loop of `init_special_migrations` (manager.py lines 24-30) over
an explicit list of migration names: for each name, fetch the
definition; raise `ImproperlyConfigured` when `POSTHOG_VERSION >
Version(posthog_max_version)`; otherwise `get_or_create` a record when
`POSTHOG_VERSION in SimpleSpec(">=min,<=max")`.  The store is threaded
and returned next to the optional raised error, so that rows written
before an exception stay visible. -/
def runGate (v : Version) (reg : Registry) :
    List String → RecordStore → RecordStore × Option GateError
  | [], store => (store, none)
  | n :: rest, store =>
    match lookupDef reg n with
    | none => runGate v reg rest store
    | some m =>
      if Version.ltb m.posthog_max_version v = true then
        (store, some ⟨n, gateErrorMessage n v⟩)
      else if (Version.leb m.posthog_min_version v && Version.leb v m.posthog_max_version) = true then
        runGate v reg rest (getOrCreate store n)
      else
        runGate v reg rest store

/-- `set(ALL_SPECIAL_MIGRATIONS.keys()) - applied_migrations`:
the registry names without a completed record. -/
def unappliedNames (reg : Registry) (store : RecordStore) : List String :=
  (reg.map Prod.fst).filter (fun n => !((getAllCompleted store).contains n))

/-- `init_special_migrations` (manager.py lines 19-30): compute the
unapplied names, iterate them in `sorted` order, and run the gate loop.
The result is the record store after the call together with the raised
`ImproperlyConfigured` error, if any. -/
def init_special_migrations (v : Version) (reg : Registry) (store : RecordStore) :
    RecordStore × Option GateError :=
  runGate v reg (List.insertionSort strLE (unappliedNames reg store)) store

/-- The value `init_special_migrations` hands back to its caller: the
function is annotated `-> None` and its body contains no `return`
statement, so the caller always receives `None` — in particular no list
of migration names.  The result type makes the absent name list
explicit for comparison with the spec's contract. -/
def init_special_migrations_returned (v : Version) (reg : Registry)
    (store : RecordStore) : Option (List String) :=
  none

/-- Follows the spec's words (§4.2): the pending-applicable set is the
set of registry names without a completed record whose version range
contains the application version, returned sorted by name. -/
def computePending_spec (v : Version) (reg : Registry) (store : RecordStore) :
    List String :=
  List.insertionSort strLE
    ((reg.filter (fun p =>
        !((getAllCompleted store).contains p.1)
          && Version.leb p.2.posthog_min_version v
          && Version.leb v p.2.posthog_max_version)).map Prod.fst)

/-- A migration name `n` "offends" the gate: it resolves in the
registry and the application version is strictly above its
`posthog_max_version`. -/
def offendsB (reg : Registry) (v : Version) (n : String) : Bool :=
  match lookupDef reg n with
  | none => false
  | some m => Version.ltb m.posthog_max_version v

/-- A migration name `n` is in its applicability window: it resolves in
the registry and the application version satisfies
`>=posthog_min_version,<=posthog_max_version`. -/
def inWindowB (reg : Registry) (v : Version) (n : String) : Bool :=
  match lookupDef reg n with
  | none => false
  | some m => Version.leb m.posthog_min_version v && Version.leb v m.posthog_max_version

namespace EventsSampleBy

/-- `posthog_min_version = "1.30.0"` of the events-sample-by migration. -/
def posthog_min_version : Version := ⟨1, 30, 0⟩

/-- `posthog_max_version = "1.31.0"` of the events-sample-by migration. -/
def posthog_max_version : Version := ⟨1, 31, 0⟩

/-- The gate-relevant data of
`posthog/special_migrations/migrations/events_sample_by_migration.py`. -/
def migrationDef : MigrationDef := ⟨posthog_min_version, posthog_max_version⟩

/-- The ClickHouse quantities read by `healthcheck`: the summed byte
size of the `sharded_events` parts and the free and total space of the
`default` disk. -/
structure DiskState where
  eventsTableBytes : Nat
  freeSpace : Nat
  totalSpace : Nat
deriving DecidableEq, Repr

/-- `Migration.healthcheck` (events_sample_by_migration.py lines
87-112).  The first query computes
`free_space.size / event_table_size.size`, i.e. free disk space divided
by the events-table size; if that ratio is `< 1.5` the method returns
`(True, None)`, otherwise it computes
`free_space.size - (free_space.free_space - 1.5 * event_table_size.size)`
(with `size` now bound to `total_space`) and returns `False` with the
"Upgrade your ClickHouse storage" message built from that quantity.
Real division is modelled on rationals (results below use a nonzero
table size); the message's `formatReadableSize` rendering is modelled
by carrying the raw byte quantity. -/
def healthcheck (d : DiskState) : Bool × Option ℚ :=
  let ratio : ℚ := (d.freeSpace : ℚ) / (d.eventsTableBytes : ℚ)
  if ratio < 3 / 2 then
    (true, none)
  else
    (false, some ((d.totalSpace : ℚ) - ((d.freeSpace : ℚ) - 3 / 2 * (d.eventsTableBytes : ℚ))))

/-- The ClickHouse quantities read by `progress`: the row counts of
`temp_events` and of the events table. -/
structure EventsDB where
  tempEventsCount : Nat
  eventsCount : Nat
deriving DecidableEq, Repr

/-- `Migration.progress` (events_sample_by_migration.py lines 114-121):
`100 * (count(temp_events) / count(events))`.  The record argument is
ignored by the source (`def progress(self, _)`); it is kept here as the
record's operation index to state that independence.  Python's division
raises `ZeroDivisionError` when the events table is empty, modelled by
`none`. -/
def progress (db : EventsDB) (recordOperationIndex : Nat) : Option ℚ :=
  if db.eventsCount = 0 then none
  else some (100 * ((db.tempEventsCount : ℚ) / (db.eventsCount : ℚ)))

end EventsSampleBy

namespace Fixtures

/-- A migration definition whose window `(1.30.0, 1.31.0)` has already
been missed at application version `1.32.0`. -/
def missedDef : MigrationDef := ⟨⟨1, 30, 0⟩, ⟨1, 31, 0⟩⟩

/-- A migration definition whose window `(1.30.0, 1.40.0)` contains
application version `1.32.0`. -/
def openDef : MigrationDef := ⟨⟨1, 30, 0⟩, ⟨1, 40, 0⟩⟩

/-- Application version `1.32.0`, the spec's example scenario. -/
def v132 : Version := ⟨1, 32, 0⟩

end Fixtures

namespace Version

theorem ltb_iff (a b : Version) :
    ltb a b = true ↔
      a.major < b.major ∨
        (a.major = b.major ∧
          (a.minor < b.minor ∨ (a.minor = b.minor ∧ a.patch < b.patch))) := by
  unfold ltb
  repeat' split
  all_goals simp_all
  all_goals omega

theorem leb_iff (a b : Version) :
    leb a b = true ↔
      a = b ∨
        (a.major < b.major ∨
          (a.major = b.major ∧
            (a.minor < b.minor ∨ (a.minor = b.minor ∧ a.patch < b.patch)))) := by
  unfold leb
  rw [Bool.or_eq_true, decide_eq_true_iff, ltb_iff]

theorem ltb_leb_trans {a b c : Version} (h₁ : ltb a b = true)
    (h₂ : leb b c = true) : ltb a c = true := by
  rw [ltb_iff] at h₁ ⊢
  rw [leb_iff] at h₂
  rcases h₂ with rfl | h₂
  · exact h₁
  · obtain ⟨a1, a2, a3⟩ := a
    obtain ⟨b1, b2, b3⟩ := b
    obtain ⟨c1, c2, c3⟩ := c
    simp_all
    omega

theorem ltb_asymm {a b : Version} (h : ltb a b = true) : ltb b a = false := by
  rw [ltb_iff] at h
  rw [Bool.eq_false_iff, ne_eq, ltb_iff]
  omega

end Version

theorem charListLeb_total : ∀ a b, charListLeb a b = true ∨ charListLeb b a = true
  | [], _ => Or.inl rfl
  | _ :: _, [] => Or.inr rfl
  | c :: cs, d :: ds => by
    rcases lt_trichotomy c d with h | h | h
    · left; simp only [charListLeb]; rw [if_pos h]
    · subst h
      rcases charListLeb_total cs ds with ih | ih
      · left; simp only [charListLeb]; rw [if_neg (lt_irrefl c), if_neg (lt_irrefl c), ih]
      · right; simp only [charListLeb]; rw [if_neg (lt_irrefl c), if_neg (lt_irrefl c), ih]
    · right; simp only [charListLeb]; rw [if_pos h]

theorem charListLeb_trans : ∀ a b c, charListLeb a b = true → charListLeb b c = true →
    charListLeb a c = true
  | [], _, _, _, _ => rfl
  | _ :: _, [], _, h, _ => by simp [charListLeb] at h
  | _ :: _, _ :: _, [], _, h => by simp [charListLeb] at h
  | a :: as, b :: bs, c :: cs, h1, h2 => by
    simp only [charListLeb] at h1 h2 ⊢
    rcases lt_trichotomy a b with hab | hab | hab
    · rcases lt_trichotomy b c with hbc | hbc | hbc
      · rw [if_pos (hab.trans hbc)]
      · subst hbc; rw [if_pos hab]
      · rw [if_neg (lt_asymm hbc), if_pos hbc] at h2; exact absurd h2 (by simp)
    · subst hab
      rw [if_neg (lt_irrefl a), if_neg (lt_irrefl a)] at h1
      rcases lt_trichotomy a c with hac | hac | hac
      · rw [if_pos hac]
      · subst hac
        rw [if_neg (lt_irrefl a), if_neg (lt_irrefl a)] at h2 ⊢
        exact charListLeb_trans _ _ _ h1 h2
      · rw [if_neg (lt_asymm hac), if_pos hac] at h2; exact absurd h2 (by simp)
    · rw [if_neg (lt_asymm hab), if_pos hab] at h1; exact absurd h1 (by simp)

theorem charListLeb_antisymm : ∀ a b, charListLeb a b = true → charListLeb b a = true → a = b
  | [], [], _, _ => rfl
  | _ :: _, [], h, _ => by simp [charListLeb] at h
  | [], _ :: _, _, h => by simp [charListLeb] at h
  | a :: as, b :: bs, h1, h2 => by
    simp only [charListLeb] at h1 h2
    rcases lt_trichotomy a b with hab | hab | hab
    · rw [if_neg (lt_asymm hab), if_pos hab] at h2; exact absurd h2 (by simp)
    · subst hab
      rw [if_neg (lt_irrefl a), if_neg (lt_irrefl a)] at h1 h2
      exact congrArg _ (charListLeb_antisymm _ _ h1 h2)
    · rw [if_neg (lt_asymm hab), if_pos hab] at h1; exact absurd h1 (by simp)

instance : IsTotal String strLE := ⟨fun a b => charListLeb_total a.data b.data⟩

instance : IsTrans String strLE := ⟨fun a b c => charListLeb_trans a.data b.data c.data⟩

theorem strLE_antisymm {a b : String} (h1 : strLE a b) (h2 : strLE b a) : a = b := by
  cases a; cases b
  exact congrArg _ (charListLeb_antisymm _ _ h1 h2)

theorem strLE_refl (a : String) : strLE a a := by
  rcases charListLeb_total a.data a.data with h | h <;> exact h

theorem Version.leb_eq_false_of_ltb {a b : Version} (h : Version.ltb a b = true) :
    Version.leb b a = false := by
  have h' := (Version.ltb_iff a b).mp h
  have h1 : Version.ltb b a = false := Version.ltb_asymm h
  have h2 : decide (b = a) = false := by
    rw [decide_eq_false_iff_not]
    rintro rfl
    omega
  simp [Version.leb, h1, h2]

theorem lookupStatus_cons (p : String × MigrationStatus) (s : RecordStore) (n : String) :
    lookupStatus (p :: s) n = if p.1 == n then some p.2 else lookupStatus s n := by
  cases h : (p.1 == n) <;> simp [lookupStatus, List.find?_cons, h]

theorem lookupStatus_append (s t : RecordStore) (n : String) :
    lookupStatus (s ++ t) n =
      if (lookupStatus s n).isSome then lookupStatus s n else lookupStatus t n := by
  simp only [lookupStatus, List.find?_append]
  cases h : s.find? (fun p => p.1 == n) <;> simp [h, Option.orElse]

theorem getOrCreate_of_isSome {s : RecordStore} {n : String}
    (h : (lookupStatus s n).isSome) : getOrCreate s n = s := by
  unfold getOrCreate
  split
  · rfl
  · next hx => rw [hx] at h; simp at h

theorem lookupStatus_getOrCreate_self (s : RecordStore) (n : String) :
    lookupStatus (getOrCreate s n) n =
      some ((lookupStatus s n).getD MigrationStatus.notStarted) := by
  unfold getOrCreate
  split
  · next st hx => rw [hx]; rfl
  · next hx =>
    rw [lookupStatus_append, hx]
    simp [lookupStatus_cons]

theorem lookupStatus_getOrCreate_ne (s : RecordStore) {m n : String} (h : m ≠ n) :
    lookupStatus (getOrCreate s m) n = lookupStatus s n := by
  unfold getOrCreate
  split
  · rfl
  · rw [lookupStatus_append]
    cases hy : lookupStatus s n with
    | none => simp [lookupStatus_cons, lookupStatus, h, hy]
    | some st => simp [hy]

theorem lookupStatus_getOrCreate_some {s : RecordStore} {n : String} {st : MigrationStatus}
    (h : lookupStatus s n = some st) (m : String) :
    lookupStatus (getOrCreate s m) n = some st := by
  by_cases hmn : m = n
  · subst hmn
    rw [lookupStatus_getOrCreate_self, h]
    rfl
  · rw [lookupStatus_getOrCreate_ne _ hmn, h]

theorem lookupStatus_getOrCreate_isSome {s : RecordStore} {n : String} (m : String)
    (h : (lookupStatus s n).isSome) : (lookupStatus (getOrCreate s m) n).isSome := by
  cases hy : lookupStatus s n with
  | none => rw [hy] at h; simp at h
  | some st => rw [lookupStatus_getOrCreate_some hy m]; rfl

theorem lookupStatus_getOrCreate_isSome_iff (s : RecordStore) (m n : String) :
    (lookupStatus (getOrCreate s m) n).isSome ↔ (lookupStatus s n).isSome ∨ n = m := by
  constructor
  · intro h
    by_cases hmn : m = n
    · exact Or.inr hmn.symm
    · rw [lookupStatus_getOrCreate_ne _ hmn] at h
      exact Or.inl h
  · rintro (h | rfl)
    · exact lookupStatus_getOrCreate_isSome m h
    · rw [lookupStatus_getOrCreate_self]; rfl

theorem getAllCompleted_getOrCreate (s : RecordStore) (n : String) :
    getAllCompleted (getOrCreate s n) = getAllCompleted s := by
  unfold getOrCreate
  split
  · rfl
  · have hb : (MigrationStatus.notStarted == MigrationStatus.completedSuccessfully) = false := rfl
    simp [getAllCompleted, List.filter_append, List.filter_cons, hb]

theorem mem_getAllCompleted_of_lookup {s : RecordStore} {n : String}
    (h : lookupStatus s n = some MigrationStatus.completedSuccessfully) :
    n ∈ getAllCompleted s := by
  unfold lookupStatus at h
  cases hf : s.find? (fun p => p.1 == n) with
  | none => rw [hf] at h; simp at h
  | some p =>
    rw [hf] at h
    have h2 : p.2 = MigrationStatus.completedSuccessfully := by simpa using h
    have hmem := List.mem_of_find?_eq_some hf
    have hpred := List.find?_some hf
    simp only [beq_iff_eq] at hpred
    subst hpred
    unfold getAllCompleted
    exact List.mem_map.mpr ⟨p, List.mem_filter.mpr ⟨hmem, by rw [h2]; rfl⟩, rfl⟩

theorem runGate_lookup_not_mem (v : Version) (reg : Registry) {n : String} :
    ∀ (names : List String) (store : RecordStore), n ∉ names →
      lookupStatus (runGate v reg names store).1 n = lookupStatus store n
  | [], _, _ => rfl
  | hd :: rest, store, hn => by
    have hhd : hd ≠ n := fun h => hn (h ▸ List.mem_cons_self hd rest)
    have hrest : n ∉ rest := fun h => hn (List.mem_cons_of_mem hd h)
    simp only [runGate]
    cases hdef : lookupDef reg hd with
    | none => exact runGate_lookup_not_mem v reg rest store hrest
    | some m =>
      dsimp only
      by_cases h1 : Version.ltb m.posthog_max_version v = true
      · rw [if_pos h1]
      · rw [if_neg h1]
        by_cases h2 : (Version.leb m.posthog_min_version v
            && Version.leb v m.posthog_max_version) = true
        · rw [if_pos h2, ← lookupStatus_getOrCreate_ne store hhd]
          exact runGate_lookup_not_mem v reg rest _ hrest
        · rw [if_neg h2]
          exact runGate_lookup_not_mem v reg rest store hrest

theorem runGate_lookup_not_inWindow (v : Version) (reg : Registry) {n : String}
    (hw : inWindowB reg v n = false) :
    ∀ (names : List String) (store : RecordStore),
      lookupStatus (runGate v reg names store).1 n = lookupStatus store n
  | [], _ => rfl
  | hd :: rest, store => by
    simp only [runGate]
    cases hdef : lookupDef reg hd with
    | none => exact runGate_lookup_not_inWindow v reg hw rest store
    | some m =>
      dsimp only
      by_cases h1 : Version.ltb m.posthog_max_version v = true
      · rw [if_pos h1]
      · rw [if_neg h1]
        by_cases h2 : (Version.leb m.posthog_min_version v
            && Version.leb v m.posthog_max_version) = true
        · rw [if_pos h2]
          have hhd : hd ≠ n := by
            rintro rfl
            simp [inWindowB, hdef, h2] at hw
          rw [← lookupStatus_getOrCreate_ne store hhd]
          exact runGate_lookup_not_inWindow v reg hw rest _
        · rw [if_neg h2]
          exact runGate_lookup_not_inWindow v reg hw rest store

theorem runGate_lookup_some (v : Version) (reg : Registry) {n : String}
    {st : MigrationStatus} :
    ∀ (names : List String) (store : RecordStore), lookupStatus store n = some st →
      lookupStatus (runGate v reg names store).1 n = some st
  | [], _, h => h
  | hd :: rest, store, h => by
    simp only [runGate]
    cases hdef : lookupDef reg hd with
    | none => exact runGate_lookup_some v reg rest store h
    | some m =>
      dsimp only
      by_cases h1 : Version.ltb m.posthog_max_version v = true
      · rw [if_pos h1]; exact h
      · rw [if_neg h1]
        by_cases h2 : (Version.leb m.posthog_min_version v
            && Version.leb v m.posthog_max_version) = true
        · rw [if_pos h2]
          exact runGate_lookup_some v reg rest _ (lookupStatus_getOrCreate_some h hd)
        · rw [if_neg h2]
          exact runGate_lookup_some v reg rest store h

theorem runGate_completed (v : Version) (reg : Registry) :
    ∀ (names : List String) (store : RecordStore),
      getAllCompleted (runGate v reg names store).1 = getAllCompleted store
  | [], _ => rfl
  | hd :: rest, store => by
    simp only [runGate]
    cases hdef : lookupDef reg hd with
    | none => exact runGate_completed v reg rest store
    | some m =>
      dsimp only
      by_cases h1 : Version.ltb m.posthog_max_version v = true
      · rw [if_pos h1]
      · rw [if_neg h1]
        by_cases h2 : (Version.leb m.posthog_min_version v
            && Version.leb v m.posthog_max_version) = true
        · rw [if_pos h2, runGate_completed v reg rest _, getAllCompleted_getOrCreate]
        · rw [if_neg h2]
          exact runGate_completed v reg rest store

theorem runGate_error_mem (v : Version) (reg : Registry) {e : GateError} :
    ∀ (names : List String) (store : RecordStore),
      (runGate v reg names store).2 = some e →
      e.migrationName ∈ names ∧ offendsB reg v e.migrationName = true ∧
        e.message = gateErrorMessage e.migrationName v
  | [], _, h => by simp [runGate] at h
  | hd :: rest, store, h => by
    simp only [runGate] at h
    cases hdef : lookupDef reg hd with
    | none =>
      rw [hdef] at h
      obtain ⟨hm, ho, hmsg⟩ := runGate_error_mem v reg rest store h
      exact ⟨List.mem_cons_of_mem hd hm, ho, hmsg⟩
    | some m =>
      rw [hdef] at h
      dsimp only at h
      by_cases h1 : Version.ltb m.posthog_max_version v = true
      · rw [if_pos h1] at h
        obtain rfl : GateError.mk hd (gateErrorMessage hd v) = e := by
          injection h
        refine ⟨List.mem_cons_self hd rest, ?_, rfl⟩
        simp [offendsB, hdef, h1]
      · rw [if_neg h1] at h
        by_cases h2 : (Version.leb m.posthog_min_version v
            && Version.leb v m.posthog_max_version) = true
        · rw [if_pos h2] at h
          obtain ⟨hm, ho, hmsg⟩ := runGate_error_mem v reg rest _ h
          exact ⟨List.mem_cons_of_mem hd hm, ho, hmsg⟩
        · rw [if_neg h2] at h
          obtain ⟨hm, ho, hmsg⟩ := runGate_error_mem v reg rest store h
          exact ⟨List.mem_cons_of_mem hd hm, ho, hmsg⟩

theorem runGate_raises (v : Version) (reg : Registry) {n : String}
    (ho : offendsB reg v n = true) :
    ∀ (names : List String) (store : RecordStore), n ∈ names →
      ((runGate v reg names store).2).isSome
  | [], _, hn => absurd hn (List.not_mem_nil n)
  | hd :: rest, store, hn => by
    simp only [runGate]
    cases hdef : lookupDef reg hd with
    | none =>
      have hne : n ≠ hd := by
        rintro rfl
        simp [offendsB, hdef] at ho
      exact runGate_raises v reg ho rest store
        ((List.mem_cons.mp hn).resolve_left hne)
    | some m =>
      dsimp only
      by_cases h1 : Version.ltb m.posthog_max_version v = true
      · rw [if_pos h1]; rfl
      · rw [if_neg h1]
        have hne : n ≠ hd := by
          rintro rfl
          rw [offendsB, hdef] at ho
          exact h1 ho
        have hrest := (List.mem_cons.mp hn).resolve_left hne
        by_cases h2 : (Version.leb m.posthog_min_version v
            && Version.leb v m.posthog_max_version) = true
        · rw [if_pos h2]
          exact runGate_raises v reg ho rest _ hrest
        · rw [if_neg h2]
          exact runGate_raises v reg ho rest store hrest

theorem runGate_success_lookup (v : Version) (reg : Registry) {n : String}
    (hw : inWindowB reg v n = true) :
    ∀ (names : List String) (store : RecordStore),
      (runGate v reg names store).2 = none → n ∈ names →
      lookupStatus (runGate v reg names store).1 n =
        some ((lookupStatus store n).getD MigrationStatus.notStarted)
  | [], _, _, hn => absurd hn (List.not_mem_nil n)
  | hd :: rest, store, hsuc, hn => by
    simp only [runGate] at hsuc ⊢
    cases hdef : lookupDef reg hd with
    | none =>
      rw [hdef] at hsuc
      have hne : n ≠ hd := by
        rintro rfl
        simp [inWindowB, hdef] at hw
      exact runGate_success_lookup v reg hw rest store hsuc
        ((List.mem_cons.mp hn).resolve_left hne)
    | some m =>
      rw [hdef] at hsuc
      dsimp only at hsuc ⊢
      by_cases h1 : Version.ltb m.posthog_max_version v = true
      · rw [if_pos h1] at hsuc
        simp at hsuc
      · rw [if_neg h1] at hsuc ⊢
        by_cases h2 : (Version.leb m.posthog_min_version v
            && Version.leb v m.posthog_max_version) = true
        · rw [if_pos h2] at hsuc ⊢
          by_cases hne : n = hd
          · subst hne
            exact runGate_lookup_some v reg rest _ (lookupStatus_getOrCreate_self store n)
          · rw [runGate_success_lookup v reg hw rest _ hsuc
              ((List.mem_cons.mp hn).resolve_left hne)]
            rw [lookupStatus_getOrCreate_ne store (fun h => hne h.symm)]
        · rw [if_neg h2] at hsuc ⊢
          have hne : n ≠ hd := by
            rintro rfl
            rw [inWindowB, hdef] at hw
            exact h2 hw
          exact runGate_success_lookup v reg hw rest store hsuc
            ((List.mem_cons.mp hn).resolve_left hne)

theorem runGate_success_isSome_iff (v : Version) (reg : Registry) (n : String) :
    ∀ (names : List String) (store : RecordStore),
      (runGate v reg names store).2 = none →
      ((lookupStatus (runGate v reg names store).1 n).isSome ↔
        (lookupStatus store n).isSome ∨ (n ∈ names ∧ inWindowB reg v n = true))
  | [], store, _ => by simp [runGate]
  | hd :: rest, store, hsuc => by
    simp only [runGate] at hsuc ⊢
    cases hdef : lookupDef reg hd with
    | none =>
      rw [hdef] at hsuc
      rw [runGate_success_isSome_iff v reg n rest store hsuc]
      have hwf : inWindowB reg v hd = false := by simp [inWindowB, hdef]
      constructor
      · rintro (hA | ⟨hR, hW⟩)
        · exact Or.inl hA
        · exact Or.inr ⟨List.mem_cons_of_mem hd hR, hW⟩
      · rintro (hA | ⟨hM, hW⟩)
        · exact Or.inl hA
        · rcases List.mem_cons.mp hM with rfl | hR
          · rw [hwf] at hW; cases hW
          · exact Or.inr ⟨hR, hW⟩
    | some m =>
      rw [hdef] at hsuc
      dsimp only at hsuc ⊢
      by_cases h1 : Version.ltb m.posthog_max_version v = true
      · rw [if_pos h1] at hsuc
        simp at hsuc
      · rw [if_neg h1] at hsuc ⊢
        by_cases h2 : (Version.leb m.posthog_min_version v
            && Version.leb v m.posthog_max_version) = true
        · rw [if_pos h2] at hsuc ⊢
          rw [runGate_success_isSome_iff v reg n rest _ hsuc,
            lookupStatus_getOrCreate_isSome_iff]
          have hwhd : inWindowB reg v hd = true := by simp [inWindowB, hdef, h2]
          constructor
          · rintro ((hA | rfl) | ⟨hR, hW⟩)
            · exact Or.inl hA
            · exact Or.inr ⟨List.mem_cons_self _ _, hwhd⟩
            · exact Or.inr ⟨List.mem_cons_of_mem hd hR, hW⟩
          · rintro (hA | ⟨hM, hW⟩)
            · exact Or.inl (Or.inl hA)
            · rcases List.mem_cons.mp hM with rfl | hR
              · exact Or.inl (Or.inr rfl)
              · exact Or.inr ⟨hR, hW⟩
        · rw [if_neg h2] at hsuc ⊢
          rw [runGate_success_isSome_iff v reg n rest store hsuc]
          have hwf : inWindowB reg v hd = false := by
            rw [inWindowB, hdef]
            exact Bool.eq_false_iff.mpr h2
          constructor
          · rintro (hA | ⟨hR, hW⟩)
            · exact Or.inl hA
            · exact Or.inr ⟨List.mem_cons_of_mem hd hR, hW⟩
          · rintro (hA | ⟨hM, hW⟩)
            · exact Or.inl hA
            · rcases List.mem_cons.mp hM with rfl | hR
              · rw [hwf] at hW; cases hW
              · exact Or.inr ⟨hR, hW⟩

theorem runGate_sorted_error_lookup (v : Version) (reg : Registry) {n : String}
    {e : GateError} (hw : inWindowB reg v n = true) :
    ∀ (names : List String) (store : RecordStore), names.Sorted strLE →
      (runGate v reg names store).2 = some e → n ∈ names →
      strLT n e.migrationName →
      lookupStatus (runGate v reg names store).1 n =
        some ((lookupStatus store n).getD MigrationStatus.notStarted)
  | [], _, _, _, hn, _ => absurd hn (List.not_mem_nil n)
  | hd :: rest, store, hsort, herr, hn, hlt => by
    obtain ⟨hhd, htail⟩ := List.sorted_cons.mp hsort
    simp only [runGate] at herr ⊢
    cases hdef : lookupDef reg hd with
    | none =>
      rw [hdef] at herr
      have hne : n ≠ hd := by
        rintro rfl
        simp [inWindowB, hdef] at hw
      exact runGate_sorted_error_lookup v reg hw rest store htail herr
        ((List.mem_cons.mp hn).resolve_left hne) hlt
    | some m =>
      rw [hdef] at herr
      dsimp only at herr ⊢
      by_cases h1 : Version.ltb m.posthog_max_version v = true
      · rw [if_pos h1] at herr
        obtain rfl : GateError.mk hd (gateErrorMessage hd v) = e := by injection herr
        exfalso
        rcases List.mem_cons.mp hn with rfl | hR
        · exact hlt.2 rfl
        · exact hlt.2 (strLE_antisymm hlt.1 (hhd n hR))
      · rw [if_neg h1] at herr ⊢
        by_cases h2 : (Version.leb m.posthog_min_version v
            && Version.leb v m.posthog_max_version) = true
        · rw [if_pos h2] at herr ⊢
          by_cases hne : n = hd
          · subst hne
            exact runGate_lookup_some v reg rest _ (lookupStatus_getOrCreate_self store n)
          · rw [runGate_sorted_error_lookup v reg hw rest _ htail herr
              ((List.mem_cons.mp hn).resolve_left hne) hlt]
            rw [lookupStatus_getOrCreate_ne store (fun h => hne h.symm)]
        · rw [if_neg h2] at herr ⊢
          have hne : n ≠ hd := by
            rintro rfl
            rw [inWindowB, hdef] at hw
            exact h2 hw
          exact runGate_sorted_error_lookup v reg hw rest store htail herr
            ((List.mem_cons.mp hn).resolve_left hne) hlt

theorem runGate_idem (v : Version) (reg : Registry) :
    ∀ (names : List String) (store : RecordStore),
      runGate v reg names (runGate v reg names store).1 = runGate v reg names store
  | [], _ => rfl
  | hd :: rest, store => by
    cases hdef : lookupDef reg hd with
    | none =>
      have hstep : ∀ s : RecordStore, runGate v reg (hd :: rest) s = runGate v reg rest s := by
        intro s
        simp [runGate, hdef]
      simp only [hstep]
      exact runGate_idem v reg rest store
    | some m =>
      by_cases h1 : Version.ltb m.posthog_max_version v = true
      · have hstep : ∀ s : RecordStore,
            runGate v reg (hd :: rest) s = (s, some ⟨hd, gateErrorMessage hd v⟩) := by
          intro s
          simp [runGate, hdef, h1]
        simp only [hstep]
      · by_cases h2 : (Version.leb m.posthog_min_version v
            && Version.leb v m.posthog_max_version) = true
        · have hstep : ∀ s : RecordStore,
              runGate v reg (hd :: rest) s = runGate v reg rest (getOrCreate s hd) := by
            intro s
            simp only [runGate, hdef]
            rw [if_neg h1, if_pos h2]
          simp only [hstep]
          have hsome : (lookupStatus (runGate v reg rest (getOrCreate store hd)).1 hd).isSome := by
            rw [runGate_lookup_some v reg rest _ (lookupStatus_getOrCreate_self store hd)]
            rfl
          rw [getOrCreate_of_isSome hsome]
          exact runGate_idem v reg rest (getOrCreate store hd)
        · have hstep : ∀ s : RecordStore, runGate v reg (hd :: rest) s = runGate v reg rest s := by
            intro s
            simp only [runGate, hdef]
            rw [if_neg h1, if_neg h2]
          simp only [hstep]
          exact runGate_idem v reg rest store

theorem mem_unappliedNames {reg : Registry} {store : RecordStore} {n : String} :
    n ∈ unappliedNames reg store ↔
      n ∈ reg.map Prod.fst ∧ n ∉ getAllCompleted store := by
  unfold unappliedNames
  rw [List.mem_filter]
  simp [List.elem_iff]

theorem lookupDef_mem_keys {reg : Registry} {n : String} {m : MigrationDef}
    (h : lookupDef reg n = some m) : n ∈ reg.map Prod.fst := by
  unfold lookupDef at h
  cases hf : reg.find? (fun p => p.1 == n) with
  | none => rw [hf] at h; simp at h
  | some p =>
    have hpred := List.find?_some hf
    simp only [beq_iff_eq] at hpred
    exact hpred ▸ List.mem_map.mpr ⟨p, List.mem_of_find?_eq_some hf, rfl⟩

theorem lookupDef_of_mem_nodup : ∀ {reg : Registry} {p : String × MigrationDef},
    (reg.map Prod.fst).Nodup → p ∈ reg → lookupDef reg p.1 = some p.2
  | [], p, _, hp => absurd hp (List.not_mem_nil p)
  | q :: rest, p, hnd, hp => by
    rw [List.map_cons, List.nodup_cons] at hnd
    rcases List.mem_cons.mp hp with rfl | hmem
    · simp [lookupDef, List.find?_cons]
    · have hne : (q.1 == p.1) = false := by
        rw [beq_eq_false_iff_ne]
        rintro h
        exact hnd.1 (h ▸ List.mem_map.mpr ⟨p, hmem, rfl⟩)
      unfold lookupDef
      rw [List.find?_cons]
      simp only [hne]
      exact lookupDef_of_mem_nodup hnd.2 hmem

theorem mem_computePending_spec {v : Version} {reg : Registry} {store : RecordStore}
    {n : String} (hnd : (reg.map Prod.fst).Nodup) :
    n ∈ computePending_spec v reg store ↔
      n ∈ unappliedNames reg store ∧ inWindowB reg v n = true := by
  unfold computePending_spec
  rw [List.mem_insertionSort, List.mem_map]
  constructor
  · rintro ⟨p, hp, rfl⟩
    rw [List.mem_filter] at hp
    obtain ⟨hpreg, hcond⟩ := hp
    simp only [Bool.and_eq_true, Bool.not_eq_true'] at hcond
    obtain ⟨⟨hnc, hl1⟩, hl2⟩ := hcond
    have hdef : lookupDef reg p.1 = some p.2 := lookupDef_of_mem_nodup hnd hpreg
    constructor
    · rw [mem_unappliedNames]
      refine ⟨List.mem_map.mpr ⟨p, hpreg, rfl⟩, ?_⟩
      have hc : (getAllCompleted store).contains p.1 = false ↔ p.1 ∉ getAllCompleted store := by
        simp [List.elem_iff]
      exact hc.mp hnc
    · simp [inWindowB, hdef, hl1, hl2]
  · rintro ⟨hu, hw⟩
    rw [mem_unappliedNames] at hu
    obtain ⟨hreg, hnc⟩ := hu
    obtain ⟨p, hpreg, hfst⟩ := List.mem_map.mp hreg
    subst hfst
    have hdef : lookupDef reg p.1 = some p.2 := lookupDef_of_mem_nodup hnd hpreg
    rw [inWindowB, hdef] at hw
    simp only [Bool.and_eq_true] at hw
    refine ⟨p, List.mem_filter.mpr ⟨hpreg, ?_⟩, rfl⟩
    simp only [Bool.and_eq_true, Bool.not_eq_true', hw.1, hw.2, and_true]
    have hc : (getAllCompleted store).contains p.1 = false ↔ p.1 ∉ getAllCompleted store := by
      simp [List.elem_iff]
    exact hc.mpr hnc

theorem lookupDef_cons (p : String × MigrationDef) (s : Registry) (n : String) :
    lookupDef (p :: s) n = if p.1 == n then some p.2 else lookupDef s n := by
  cases h : (p.1 == n) <;> simp [lookupDef, List.find?_cons, h]

theorem lookupDef_append (s t : Registry) (n : String) :
    lookupDef (s ++ t) n =
      if (lookupDef s n).isSome then lookupDef s n else lookupDef t n := by
  simp only [lookupDef, List.find?_append]
  cases h : s.find? (fun p => p.1 == n) <;> simp [h, Option.orElse]

theorem lookupDef_map_replace (k : String) (mv : MigrationDef) :
    ∀ d : Registry, d.any (fun p => p.1 == k) = true →
      lookupDef (d.map (fun p => if p.1 == k then (k, mv) else p)) k = some mv
  | [], h => by simp at h
  | p :: rest, h => by
    rw [List.map_cons]
    by_cases hpk : (p.1 == k) = true
    · rw [if_pos hpk, lookupDef_cons]
      simp
    · rw [if_neg hpk, lookupDef_cons, if_neg hpk]
      apply lookupDef_map_replace k mv rest
      have hpk' : (p.1 == k) = false := Bool.eq_false_iff.mpr hpk
      simp only [List.any_cons, hpk', Bool.false_or] at h
      exact h

theorem lookupDef_dictInsert_self (d : Registry) (k : String) (mv : MigrationDef) :
    lookupDef (dictInsert d k mv) k = some mv := by
  unfold dictInsert
  by_cases h : d.any (fun p => p.1 == k) = true
  · rw [if_pos h]
    exact lookupDef_map_replace k mv d h
  · rw [if_neg h, lookupDef_append]
    have hnone : lookupDef d k = none := by
      cases hf : d.find? (fun p => p.1 == k) with
      | none => simp [lookupDef, hf]
      | some p =>
        exact absurd (List.any_of_mem (List.mem_of_find?_eq_some hf) (List.find?_some hf)) h
    rw [hnone]
    simp [lookupDef_cons]

theorem lookupDef_map_replace_ne (k : String) (mv : MigrationDef) {n : String} (hne : k ≠ n) :
    ∀ d : Registry,
      lookupDef (d.map (fun p => if p.1 == k then (k, mv) else p)) n = lookupDef d n
  | [] => rfl
  | p :: rest => by
    rw [List.map_cons]
    by_cases hpk : (p.1 == k) = true
    · rw [if_pos hpk]
      have hp1 : p.1 = k := beq_iff_eq.mp hpk
      have hkn : (k == n) = false := by
        rw [beq_eq_false_iff_ne]; exact hne
      rw [lookupDef_cons, lookupDef_cons]
      rw [hp1, hkn]
      simp only [Bool.false_eq_true, if_false]
      exact lookupDef_map_replace_ne k mv hne rest
    · rw [if_neg hpk, lookupDef_cons, lookupDef_cons]
      by_cases hpn : (p.1 == n) = true
      · rw [if_pos hpn, if_pos hpn]
      · rw [if_neg hpn, if_neg hpn]
        exact lookupDef_map_replace_ne k mv hne rest

theorem lookupDef_dictInsert_ne (d : Registry) (k : String) (mv : MigrationDef)
    {n : String} (hne : k ≠ n) :
    lookupDef (dictInsert d k mv) n = lookupDef d n := by
  unfold dictInsert
  by_cases h : d.any (fun p => p.1 == k) = true
  · rw [if_pos h]
    exact lookupDef_map_replace_ne k mv hne d
  · rw [if_neg h, lookupDef_append]
    cases hf : lookupDef d n with
    | some p => simp [hf]
    | none =>
      simp only [hf, Option.isSome_none, Bool.false_eq_true, if_false]
      rw [lookupDef_cons]
      have hkn : (k == n) = false := by rw [beq_eq_false_iff_ne]; exact hne
      simp [hkn, lookupDef]

theorem buildRegistry_lookup_aux (debug : Bool) :
    ∀ (mods : List (String × MigrationDef)) (acc : Registry) (k : String),
      lookupDef (mods.foldl
          (fun acc p => if includedModule debug p = true then dictInsert acc p.1 p.2 else acc)
          acc) k =
        match (mods.filter (includedModule debug)).reverse.find? (fun p => p.1 == k) with
        | some q => some q.2
        | none => lookupDef acc k
  | [], _, _ => rfl
  | p :: rest, acc, k => by
    simp only [List.foldl_cons, List.filter_cons]
    by_cases hincl : includedModule debug p = true
    · rw [if_pos hincl, if_pos hincl, List.reverse_cons, List.find?_append]
      rw [buildRegistry_lookup_aux debug rest (dictInsert acc p.1 p.2) k]
      cases hf : (rest.filter (includedModule debug)).reverse.find? (fun q => q.1 == k) with
      | some q => simp [Option.orElse]
      | none =>
        simp only [Option.orElse, Option.none_orElse]
        cases hk : (p.1 == k) with
        | true =>
          have hp1 : p.1 = k := beq_iff_eq.mp hk
          simp only [List.find?_cons, hk]
          subst hp1
          exact lookupDef_dictInsert_self acc p.1 p.2
        | false =>
          simp only [List.find?_cons, hk, List.find?_nil]
          exact lookupDef_dictInsert_ne acc p.1 p.2 (beq_eq_false_iff_ne.mp hk)
    · rw [if_neg hincl, if_neg hincl]
      exact buildRegistry_lookup_aux debug rest acc k

/-- Claim C1, counterexample: with two incomplete migrations "a" and "b",
both with `posthog_max_version = 1.31.0`, at application version
`1.32.0`, migration "b" satisfies the claim's premise (not completed,
version strictly above its `posthog_max_version`), yet the error that
`init_special_migrations` raises names "a", not "b": the gate raises for
the lexicographically first offender only, so no error naming `M = "b"`
is raised. -/
theorem C1_counterexample :
    lookupDef [("a", Fixtures.missedDef), ("b", Fixtures.missedDef)] "b"
        = some Fixtures.missedDef ∧
    getAllCompleted ([] : RecordStore) = [] ∧
    Version.ltb Fixtures.missedDef.posthog_max_version Fixtures.v132 = true ∧
    (init_special_migrations Fixtures.v132
        [("a", Fixtures.missedDef), ("b", Fixtures.missedDef)] []).2.map
          GateError.migrationName = some "a" ∧
    ("a" : String) ≠ "b" := by
  decide

/-- Claim C1, amended: for every registry migration `M` that is not
completed and whose `posthog_max_version` lies strictly below the
application version, `init_special_migrations` raises an
`ImproperlyConfigured` error; the error names an incomplete migration
whose window has been missed (the first such in sorted name order) —
not necessarily `M` itself — with the message of manager.py line 27. -/
theorem C1_version_gate_raises (v : Version) (reg : Registry) (store : RecordStore)
    (n : String) (m : MigrationDef)
    (hdef : lookupDef reg n = some m)
    (hinc : n ∉ getAllCompleted store)
    (hmax : Version.ltb m.posthog_max_version v = true) :
    ∃ e, (init_special_migrations v reg store).2 = some e ∧
      offendsB reg v e.migrationName = true ∧
      e.migrationName ∉ getAllCompleted store ∧
      e.message = gateErrorMessage e.migrationName v := by
  have ho : offendsB reg v n = true := by simp [offendsB, hdef, hmax]
  have hmem : n ∈ List.insertionSort strLE (unappliedNames reg store) := by
    rw [List.mem_insertionSort, mem_unappliedNames]
    exact ⟨lookupDef_mem_keys hdef, hinc⟩
  have hs := runGate_raises v reg ho _ store hmem
  obtain ⟨e, he⟩ := Option.isSome_iff_exists.mp hs
  obtain ⟨hm, ho', hmsg⟩ := runGate_error_mem v reg _ store he
  rw [List.mem_insertionSort, mem_unappliedNames] at hm
  exact ⟨e, he, ho', hm.2, hmsg⟩

/-- Claim C1, witness: the amended theorem applied to a concrete
one-migration registry whose window is missed at version 1.32.0. -/
theorem C1_version_gate_raises_witness :
    ∃ e, (init_special_migrations Fixtures.v132 [("a", Fixtures.missedDef)] []).2 = some e ∧
      offendsB [("a", Fixtures.missedDef)] Fixtures.v132 e.migrationName = true ∧
      e.migrationName ∉ getAllCompleted ([] : RecordStore) ∧
      e.message = gateErrorMessage e.migrationName Fixtures.v132 :=
  C1_version_gate_raises Fixtures.v132 [("a", Fixtures.missedDef)] [] "a" Fixtures.missedDef
    (by decide) (by decide) (by decide)

/-- Claim C2, code bug, evaluated at the spec's example scenario: the
events-sample-by migration (window `(1.30.0, 1.31.0)`), application
version `1.32.0`, no record.  The gate raises, but the message
interpolates the *current* application version (`VERSION`, manager.py
line 27) — "above 1.32.0" — not the migration's upper bound
`posthog_max_version = 1.31.0` that the claim requires it to
reference. -/
theorem C2_error_message_uses_current_version :
    (init_special_migrations Fixtures.v132
        [("events_sample_by_migration", EventsSampleBy.migrationDef)] []).2 =
      some ⟨"events_sample_by_migration",
        "Migration events_sample_by_migration is required for PostHog versions above 1.32.0."⟩ ∧
    Version.render EventsSampleBy.migrationDef.posthog_max_version = "1.31.0" ∧
    gateErrorMessage "events_sample_by_migration" Fixtures.v132 ≠
      "Migration events_sample_by_migration is required for PostHog versions above 1.31.0." := by
  decide

/-- Claim C3, code bug: the healthcheck's comparison is inverted.  The
first query computes free-space / table-size, so plentiful disk gives a
*large* ratio; the code returns `(True, None)` exactly when that ratio
is `< 1.5`.  With a 100-byte events table and 1000 bytes free
(free ≥ 1.5 × table, so the claim requires ok = True) the code returns
ok = False with the "Upgrade your ClickHouse storage" detail; with only
100 bytes free (free < 1.5 × table, claim requires ok = False) it
returns `(True, None)`. -/
theorem C3_healthcheck_inverted :
    (3 / 2 : ℚ) * 100 ≤ 1000 ∧
    EventsSampleBy.healthcheck ⟨100, 1000, 2000⟩ = (false, some 1150) ∧
    (100 : ℚ) < (3 / 2 : ℚ) * 100 ∧
    EventsSampleBy.healthcheck ⟨100, 100, 2000⟩ = (true, none) := by
  refine ⟨by norm_num, ?_, by norm_num, ?_⟩
  · unfold EventsSampleBy.healthcheck
    norm_num
  · unfold EventsSampleBy.healthcheck
    norm_num

/-- Claim C4, counterexample: at version `1.32.0` with a one-migration
registry in window and an empty store, the spec's pending-applicable
set is the nonempty sorted list `["a"]`, but the value the Python
function hands back to its caller is `None` (`-> None`, no return
statement): the pending set is not returned. -/
theorem C4_counterexample :
    computePending_spec Fixtures.v132 [("a", Fixtures.openDef)] [] = ["a"] ∧
    init_special_migrations_returned Fixtures.v132 [("a", Fixtures.openDef)] [] = none := by
  decide

/-- Claim C4, amended: the gate does not return the pending-applicable
set — the caller always receives `None`; its observable effect is on the
record store: after an error-free run over a registry with distinct
names, a record exists for a name iff one existed before or the name
belongs to the spec's sorted pending-applicable set
(`computePending_spec`). -/
theorem C4_gate_effect (v : Version) (reg : Registry) (store : RecordStore)
    (hnd : (reg.map Prod.fst).Nodup)
    (hok : (init_special_migrations v reg store).2 = none) :
    init_special_migrations_returned v reg store = none ∧
    ∀ n, (lookupStatus (init_special_migrations v reg store).1 n).isSome ↔
      ((lookupStatus store n).isSome ∨ n ∈ computePending_spec v reg store) := by
  refine ⟨rfl, fun n => ?_⟩
  rw [mem_computePending_spec hnd]
  have h := runGate_success_isSome_iff v reg n
    (List.insertionSort strLE (unappliedNames reg store)) store hok
  rw [List.mem_insertionSort] at h
  exact h

/-- Claim C4, witness: the amended theorem applied to a concrete
registry with one pending migration. -/
theorem C4_gate_effect_witness :
    (([("a", Fixtures.openDef)] : Registry).map Prod.fst).Nodup ∧
    (init_special_migrations Fixtures.v132 [("a", Fixtures.openDef)] []).2 = none ∧
    (init_special_migrations_returned Fixtures.v132 [("a", Fixtures.openDef)] [] = none ∧
     ∀ n, (lookupStatus (init_special_migrations Fixtures.v132
         [("a", Fixtures.openDef)] []).1 n).isSome ↔
       ((lookupStatus ([] : RecordStore) n).isSome ∨
         n ∈ computePending_spec Fixtures.v132 [("a", Fixtures.openDef)] [])) :=
  ⟨by decide, by decide,
    C4_gate_effect Fixtures.v132 [("a", Fixtures.openDef)] [] (by decide) (by decide)⟩

/-- Claim C5, confirmed: a migration whose record status is
CompletedSuccessfully is removed from the candidate set before any
version comparison: for every application version and registry, the
raised error (if any) never names it, and its record is left exactly as
it was (no new record, no status change). -/
theorem C5_completed_excluded (v : Version) (reg : Registry) (store : RecordStore)
    (n : String)
    (hc : lookupStatus store n = some MigrationStatus.completedSuccessfully) :
    lookupStatus (init_special_migrations v reg store).1 n =
      some MigrationStatus.completedSuccessfully ∧
    ∀ e, (init_special_migrations v reg store).2 = some e → e.migrationName ≠ n := by
  constructor
  · exact runGate_lookup_some v reg _ store hc
  · intro e he
    obtain ⟨hm, _, _⟩ := runGate_error_mem v reg _ store he
    rw [List.mem_insertionSort, mem_unappliedNames] at hm
    rintro rfl
    exact hm.2 (mem_getAllCompleted_of_lookup hc)

/-- Claim C5, witness: a completed migration whose window is missed at
version 1.32.0 raises nothing and keeps its record. -/
theorem C5_completed_excluded_witness :
    lookupStatus [("done", MigrationStatus.completedSuccessfully)] "done" =
      some MigrationStatus.completedSuccessfully ∧
    (lookupStatus (init_special_migrations Fixtures.v132 [("done", Fixtures.missedDef)]
        [("done", MigrationStatus.completedSuccessfully)]).1 "done" =
      some MigrationStatus.completedSuccessfully ∧
    ∀ e, (init_special_migrations Fixtures.v132 [("done", Fixtures.missedDef)]
        [("done", MigrationStatus.completedSuccessfully)]).2 = some e →
      e.migrationName ≠ "done") :=
  ⟨by decide,
    C5_completed_excluded Fixtures.v132 [("done", Fixtures.missedDef)]
      [("done", MigrationStatus.completedSuccessfully)] "done" (by decide)⟩

/-- Claim C6, counterexample: registry {"a" window missed, "b" in
window}, version `1.32.0`, empty store: "b" is incomplete, the version
lies inside `[min, max]` and no record exists — the claim demands a
NotStarted record be created for "b" — yet the call (raising for "a"
first) terminates with no record for "b". -/
theorem C6_counterexample :
    lookupDef [("a", Fixtures.missedDef), ("b", Fixtures.openDef)] "b"
        = some Fixtures.openDef ∧
    Version.leb Fixtures.openDef.posthog_min_version Fixtures.v132 = true ∧
    Version.leb Fixtures.v132 Fixtures.openDef.posthog_max_version = true ∧
    lookupStatus ([] : RecordStore) "b" = none ∧
    lookupStatus (init_special_migrations Fixtures.v132
        [("a", Fixtures.missedDef), ("b", Fixtures.openDef)] []).1 "b" = none := by
  decide

/-- Claim C6, amended: for an incomplete migration `M` with a
well-formed window (min ≤ max): if the call raises no error and the
version lies in `[min, max]`, then after the call `M` has its prior
record if one existed and a fresh NotStarted record otherwise; if the
version is strictly below `min`, `M` is ignored unconditionally — its
record entry is unchanged and no raised error names it. -/
theorem C6_window_and_below_min (v : Version) (reg : Registry) (store : RecordStore)
    (n : String) (m : MigrationDef)
    (hdef : lookupDef reg n = some m)
    (hinc : n ∉ getAllCompleted store)
    (hrange : Version.leb m.posthog_min_version m.posthog_max_version = true) :
    ((Version.leb m.posthog_min_version v = true ∧ Version.leb v m.posthog_max_version = true ∧
        (init_special_migrations v reg store).2 = none) →
      lookupStatus (init_special_migrations v reg store).1 n =
        some ((lookupStatus store n).getD MigrationStatus.notStarted)) ∧
    (Version.ltb v m.posthog_min_version = true →
      (lookupStatus (init_special_migrations v reg store).1 n = lookupStatus store n ∧
       ∀ e, (init_special_migrations v reg store).2 = some e → e.migrationName ≠ n)) := by
  constructor
  · rintro ⟨h1, h2, hok⟩
    have hw : inWindowB reg v n = true := by simp [inWindowB, hdef, h1, h2]
    have hmem : n ∈ List.insertionSort strLE (unappliedNames reg store) := by
      rw [List.mem_insertionSort, mem_unappliedNames]
      exact ⟨lookupDef_mem_keys hdef, hinc⟩
    exact runGate_success_lookup v reg hw _ store hok hmem
  · intro hbelow
    have hvmax : Version.ltb v m.posthog_max_version = true :=
      Version.ltb_leb_trans hbelow hrange
    have hmaxf : Version.ltb m.posthog_max_version v = false := Version.ltb_asymm hvmax
    have hminf : Version.leb m.posthog_min_version v = false :=
      Version.leb_eq_false_of_ltb hbelow
    have hwf : inWindowB reg v n = false := by simp [inWindowB, hdef, hminf]
    constructor
    · exact runGate_lookup_not_inWindow v reg hwf _ store
    · intro e he
      obtain ⟨_, ho, _⟩ := runGate_error_mem v reg _ store he
      rintro rfl
      simp only [offendsB, hdef, hmaxf] at ho
      exact Bool.false_ne_true ho

/-- Claim C6, witness: the amended theorem at a concrete in-window
migration (the in-window branch fires; the below-min branch is vacuous
at this version). -/
theorem C6_window_and_below_min_witness :
    lookupDef [("w", Fixtures.openDef)] "w" = some Fixtures.openDef ∧
    ("w" ∉ getAllCompleted ([] : RecordStore)) ∧
    Version.leb Fixtures.openDef.posthog_min_version Fixtures.openDef.posthog_max_version
      = true ∧
    (((Version.leb Fixtures.openDef.posthog_min_version Fixtures.v132 = true ∧
        Version.leb Fixtures.v132 Fixtures.openDef.posthog_max_version = true ∧
        (init_special_migrations Fixtures.v132 [("w", Fixtures.openDef)] []).2 = none) →
      lookupStatus (init_special_migrations Fixtures.v132 [("w", Fixtures.openDef)] []).1 "w" =
        some ((lookupStatus ([] : RecordStore) "w").getD MigrationStatus.notStarted)) ∧
    (Version.ltb Fixtures.v132 Fixtures.openDef.posthog_min_version = true →
      (lookupStatus (init_special_migrations Fixtures.v132
          [("w", Fixtures.openDef)] []).1 "w" = lookupStatus ([] : RecordStore) "w" ∧
       ∀ e, (init_special_migrations Fixtures.v132 [("w", Fixtures.openDef)] []).2 = some e →
         e.migrationName ≠ "w"))) :=
  ⟨by decide, by decide, by decide,
    C6_window_and_below_min Fixtures.v132 [("w", Fixtures.openDef)] [] "w" Fixtures.openDef
      (by decide) (by decide) (by decide)⟩

/-- Claim C7, counterexample: registry construction fed two module
entries sharing the name "a" (with different definitions) does not fail
fast — it silently keeps the later definition. -/
theorem C7_counterexample :
    buildRegistry false [("a", Fixtures.missedDef), ("a", Fixtures.openDef)] =
      [("a", Fixtures.openDef)] ∧
    Fixtures.missedDef ≠ Fixtures.openDef := by
  decide

/-- Claim C7, amended: registry load is total — there is no failure
path.  Looking up a name yields the definition of the *last* included
module bearing that name (so a duplicate silently overwrites its
predecessor rather than raising; in the program duplicates cannot occur
since names are module names), and the "example" module is included
only in DEBUG mode. -/
theorem C7_registry_last_wins (debug : Bool) (mods : List (String × MigrationDef))
    (k : String) :
    lookupDef (buildRegistry debug mods) k =
      ((mods.filter (includedModule debug)).reverse.find? (fun p => p.1 == k)).map
        Prod.snd := by
  rw [buildRegistry, buildRegistry_lookup_aux]
  cases hf : (mods.filter (includedModule debug)).reverse.find? (fun p => p.1 == k) with
  | some q => simp
  | none => simp [lookupDef]

/-- Claim C8, counterexample: on the database state where the events
table holds zero rows, `progress` is not defined: Python's
`100 * (moved / total)` raises `ZeroDivisionError` (modelled `none`),
contradicting totality over every database state. -/
theorem C8_counterexample : EventsSampleBy.progress ⟨0, 0⟩ 0 = none := by
  decide

/-- Claim C8, amended: whenever the events table holds at least one
row, `progress` is defined, independent of the record's operation index
(the record argument is ignored), and equals 100 × (temp-table rows /
events rows); that percentage lies in [0, 100] whenever the temp table
holds at most as many rows as the events table. -/
theorem C8_progress_defined (db : EventsSampleBy.EventsDB) (i j : Nat)
    (h : 0 < db.eventsCount) :
    EventsSampleBy.progress db i =
      some (100 * ((db.tempEventsCount : ℚ) / (db.eventsCount : ℚ))) ∧
    EventsSampleBy.progress db i = EventsSampleBy.progress db j ∧
    (db.tempEventsCount ≤ db.eventsCount →
      0 ≤ 100 * ((db.tempEventsCount : ℚ) / (db.eventsCount : ℚ)) ∧
      100 * ((db.tempEventsCount : ℚ) / (db.eventsCount : ℚ)) ≤ 100) := by
  have hne : db.eventsCount ≠ 0 := Nat.pos_iff_ne_zero.mp h
  refine ⟨by simp [EventsSampleBy.progress, hne], rfl, fun hle => ?_⟩
  have he : (0 : ℚ) < db.eventsCount := by exact_mod_cast h
  constructor
  · positivity
  · have hd : (db.tempEventsCount : ℚ) / db.eventsCount ≤ 1 := by
      rw [div_le_one he]
      exact_mod_cast hle
    linarith

/-- Claim C8, witness: the amended theorem at a database with one of
two rows copied. -/
theorem C8_progress_defined_witness :
    0 < (⟨1, 2⟩ : EventsSampleBy.EventsDB).eventsCount ∧
    (EventsSampleBy.progress ⟨1, 2⟩ 0 =
      some (100 * (((⟨1, 2⟩ : EventsSampleBy.EventsDB).tempEventsCount : ℚ) /
        ((⟨1, 2⟩ : EventsSampleBy.EventsDB).eventsCount : ℚ))) ∧
    EventsSampleBy.progress ⟨1, 2⟩ 0 = EventsSampleBy.progress ⟨1, 2⟩ 5 ∧
    ((⟨1, 2⟩ : EventsSampleBy.EventsDB).tempEventsCount ≤
        (⟨1, 2⟩ : EventsSampleBy.EventsDB).eventsCount →
      0 ≤ 100 * (((⟨1, 2⟩ : EventsSampleBy.EventsDB).tempEventsCount : ℚ) /
        ((⟨1, 2⟩ : EventsSampleBy.EventsDB).eventsCount : ℚ)) ∧
      100 * (((⟨1, 2⟩ : EventsSampleBy.EventsDB).tempEventsCount : ℚ) /
        ((⟨1, 2⟩ : EventsSampleBy.EventsDB).eventsCount : ℚ)) ≤ 100)) :=
  ⟨by decide, C8_progress_defined ⟨1, 2⟩ 0 5 (by decide)⟩

/-- Claim C9, confirmed: the gate is not atomic on error.  It walks
names in sorted order, so when the call raises for migration
`e.migrationName`, every incomplete in-window migration sorting
strictly before that name still has a record in the store the call
leaves behind: its prior record if one existed, else the freshly
created NotStarted record. -/
theorem C9_records_survive_error (v : Version) (reg : Registry) (store : RecordStore)
    (n : String) (m : MigrationDef) (e : GateError)
    (he : (init_special_migrations v reg store).2 = some e)
    (hdef : lookupDef reg n = some m)
    (hinc : n ∉ getAllCompleted store)
    (h1 : Version.leb m.posthog_min_version v = true)
    (h2 : Version.leb v m.posthog_max_version = true)
    (hlt : strLT n e.migrationName) :
    lookupStatus (init_special_migrations v reg store).1 n =
      some ((lookupStatus store n).getD MigrationStatus.notStarted) := by
  have hw : inWindowB reg v n = true := by simp [inWindowB, hdef, h1, h2]
  have hmem : n ∈ List.insertionSort strLE (unappliedNames reg store) := by
    rw [List.mem_insertionSort, mem_unappliedNames]
    exact ⟨lookupDef_mem_keys hdef, hinc⟩
  exact runGate_sorted_error_lookup v reg hw _ store
    (List.sorted_insertionSort strLE _) he hmem hlt

/-- Claim C9, witness: registry {"a" in window, "b" window missed},
empty store: the call raises for "b" and the NotStarted record it
created for "a" remains. -/
theorem C9_records_survive_error_witness :
    (init_special_migrations Fixtures.v132
        [("a", Fixtures.openDef), ("b", Fixtures.missedDef)] []).2 =
      some ⟨"b", "Migration b is required for PostHog versions above 1.32.0."⟩ ∧
    lookupStatus (init_special_migrations Fixtures.v132
        [("a", Fixtures.openDef), ("b", Fixtures.missedDef)] []).1 "a" =
      some ((lookupStatus ([] : RecordStore) "a").getD MigrationStatus.notStarted) :=
  ⟨by decide,
    C9_records_survive_error Fixtures.v132
      [("a", Fixtures.openDef), ("b", Fixtures.missedDef)] [] "a" Fixtures.openDef
      ⟨"b", "Migration b is required for PostHog versions above 1.32.0."⟩
      (by decide) (by decide) (by decide) (by decide) (by decide) (by decide)⟩

/-- Claim C10, confirmed: `init_special_migrations` is idempotent on
the migration record store: run again on the store the first call left
behind (with no intervening change), it returns exactly the same store
and the same outcome — record creation goes through get_or_create, so
nothing is duplicated and no existing record is modified. -/
theorem C10_idempotent (v : Version) (reg : Registry) (store : RecordStore) :
    init_special_migrations v reg (init_special_migrations v reg store).1 =
      init_special_migrations v reg store := by
  unfold init_special_migrations
  have hc : unappliedNames reg (runGate v reg
      (List.insertionSort strLE (unappliedNames reg store)) store).1 =
      unappliedNames reg store := by
    unfold unappliedNames
    rw [runGate_completed]
  rw [hc]
  exact runGate_idem v reg _ store
